import Mathlib

/-!
Verification of the slot-matching and booking-persistence logic of
`src/mvp_scheduler.py` (PROJECT_B_SCHEDULER).

The script reads intake rows (name, email, preferred_slots), loads the
existing-bookings CSV, and, for each row, books the first preferred slot
that does not overlap the committed bookings, writing an .ics invite and
appending the booking to the CSV.

Shallow embedding choices:
- datetimes are `Int` (minutes); `timedelta(minutes=d)` is `+ d`;
- `datetime.fromisoformat` is an abstract parameter
  `parse : String -> Option Int` (`none` models a raised `ValueError`);
- Python `str.strip` / `str.split` are re-implemented structurally on
  `List Char` (`pyStrip`, `pySplit`);
- the existing-bookings CSV is `Option (List (Int x Int))` (`none` models
  a missing file);
- the side effects of one booking (`create_ics`, the CSV append, the
  in-memory `bookings.append`, the `scheduled.append`) are recorded in a
  `SchedState`; `create_ics` and the CSV append also leave an `Event` in
  a trace so their relative order is provable;
- an uncaught Python exception (e.g. `KeyError` on a missing CSV field)
  is `Except.error`.
-/

namespace MvpScheduler

abbrev DT := Int

/-- The appointment duration: `DURATION_MINUTES = 30` in the script. -/
def DURATION_MINUTES : Int := 30

/-- Characters removed by Python `str.strip()` (ASCII whitespace). -/
def isPySpace (c : Char) : Bool :=
  c = ' ' || c = '\t' || c = '\n' || c = '\r' || c = '\x0b' || c = '\x0c'

/-- Python `str.strip()` on the character list. -/
def pyStripChars (l : List Char) : List Char :=
  ((l.dropWhile isPySpace).reverse.dropWhile isPySpace).reverse

/-- Python `str.strip()`. -/
def pyStrip (s : String) : String := String.mk (pyStripChars s.data)

/-- Python `str.split(sep)` on the character list (keeps empty pieces). -/
def splitChars (sep : Char) : List Char → List (List Char)
  | [] => [[]]
  | c :: rest =>
    match splitChars sep rest with
    | [] => [[c]]
    | g :: gs => if c = sep then [] :: g :: gs else (c :: g) :: gs

/-- Python `str.split(sep)` for a one-character separator. -/
def pySplit (sep : Char) (s : String) : List String :=
  (splitChars sep s.data).map String.mk

/-- The candidate-list comprehension of `main`: split `raw_prefs` on
semicolons, strip each piece, keep the non-blank ones. -/
def parsePrefs (raw_prefs : String) : List String :=
  ((pySplit ';' raw_prefs).map pyStrip).filter (fun p => !(p = ""))

/-- The function `slot_overlaps` of the script: scans the
bookings and returns `True` on the first `start < bend and end > bstart`. -/
def slot_overlaps (start stop : DT) (bookings : List (DT × DT)) : Bool :=
  match bookings with
  | [] => false
  | (bstart, bend) :: rest =>
    if start < bend ∧ stop > bstart then true
    else slot_overlaps start stop rest

/-- The function `read_existing_bookings`: empty when the CSV file does not exist,
otherwise the recorded rows in file order. -/
def read_existing_bookings (file : Option (List (DT × DT))) : List (DT × DT) :=
  match file with
  | none => []
  | some rows => rows

/-- The function `append_booking_to_existing`: creates the CSV (header plus
one row) when absent, otherwise appends one row at the end. -/
def append_booking_to_existing (start stop : DT) (file : Option (List (DT × DT))) :
    Option (List (DT × DT)) :=
  match file with
  | none => some [(start, stop)]
  | some rows => some (rows ++ [(start, stop)])

/-- Observable side effects of `main`, in program order: `create_ics`
writes the invite file, `append` is `append_booking_to_existing`. -/
inductive Event where
  | invite : String → DT → Event
  | append : DT → DT → Event
deriving DecidableEq, Repr

/-- One intake CSV row as `csv.DictReader` hands it to `main`; `none`
models a field whose key is absent from the row dict. -/
structure Row where
  name : Option String
  email : Option String
  preferred_slots : Option String
deriving DecidableEq, Repr

/-- The per-row terminal branch of the loop body of `main`: a successful
booking, the `No preferred slots` message, or the
`Could not find a free preferred slot` message. -/
inductive Outcome where
  | scheduled : String → DT → DT → Outcome
  | noPrefs : String → Outcome
  | noFreeSlot : String → Outcome
deriving DecidableEq, Repr

/-- The mutable state of `main`: the in-memory `bookings` list, the
existing-bookings CSV, the event trace, and the `scheduled` summary list
(name, email, start). -/
structure SchedState where
  bookings : List (DT × DT)
  file : Option (List (DT × DT))
  events : List Event
  scheduled : List (String × String × DT)
deriving DecidableEq, Repr

/-- The inner `for p in prefs` loop of `main`: parse the candidate (skip
it on `ValueError`), skip it when `slot_overlaps`, otherwise run
`create_ics`, `append_booking_to_existing`, `bookings.append`,
`scheduled.append` and `break`. -/
def processPrefs (parse : String → Option DT) (name email : String) (st : SchedState) :
    List String → SchedState × Option (DT × DT)
  | [] => (st, none)
  | p :: rest =>
    match parse p with
    | none => processPrefs parse name email st rest
    | some start_dt =>
      let end_dt := start_dt + DURATION_MINUTES
      if slot_overlaps start_dt end_dt st.bookings then
        processPrefs parse name email st rest
      else
        ({ bookings := st.bookings ++ [(start_dt, end_dt)],
           file := append_booking_to_existing start_dt end_dt st.file,
           events := st.events ++ [Event.invite name start_dt, Event.append start_dt end_dt],
           scheduled := st.scheduled ++ [(name, email, start_dt)] },
         some (start_dt, end_dt))

/-- One iteration of the `for row in reader` loop of `main`. Subscripting
the row dict for `name` and `email` raises `KeyError` when the key is
absent; the `row.get` call for `preferred_slots` does not. -/
def processRow (parse : String → Option DT) (st : SchedState) (row : Row) :
    Except String (SchedState × Outcome) :=
  match row.name with
  | none => Except.error ("KeyError: name")
  | some rawName =>
    match row.email with
    | none => Except.error ("KeyError: email")
    | some rawEmail =>
      let name := pyStrip rawName
      let email := pyStrip rawEmail
      let raw_prefs := pyStrip (row.preferred_slots.getD "")
      if raw_prefs = "" then Except.ok (st, Outcome.noPrefs name)
      else
        match processPrefs parse name email st (parsePrefs raw_prefs) with
        | (st2, some (s, e)) => Except.ok (st2, Outcome.scheduled name s e)
        | (st2, none) => Except.ok (st2, Outcome.noFreeSlot name)

/-- The loop of `main` over the intake rows; an uncaught exception aborts the
whole run. -/
def runRows (parse : String → Option DT) (st : SchedState) :
    List Row → Except String (SchedState × List Outcome)
  | [] => Except.ok (st, [])
  | row :: rows =>
    match processRow parse st row with
    | Except.error e => Except.error e
    | Except.ok (st2, o) =>
      match runRows parse st2 rows with
      | Except.error e => Except.error e
      | Except.ok (st3, os) => Except.ok (st3, o :: os)

/-- The function `main`: load the existing bookings from the CSV, then process every
intake row in order. -/
def mainRun (parse : String → Option DT) (rows : List Row)
    (file : Option (List (DT × DT))) : Except String (SchedState × List Outcome) :=
  runRows parse
    { bookings := read_existing_bookings file, file := file, events := [], scheduled := [] }
    rows

/-- The slot-selection loop of `main` isolated on already-parsed candidate
intervals: first candidate that does not `slot_overlaps` the committed set. -/
def select (candidates committed : List (DT × DT)) : Option (DT × DT) :=
  match candidates with
  | [] => none
  | c :: rest =>
    if slot_overlaps c.1 c.2 committed then select rest committed else some c

/-- Two intervals overlap (half-open semantics). -/
def Overlap2 (a b : DT × DT) : Prop := a.1 < b.2 ∧ a.2 > b.1

/-- No two intervals of the list overlap. -/
def NoTwoOverlap (l : List (DT × DT)) : Prop :=
  l.Pairwise (fun a b => ¬ Overlap2 a b)

/-- The claimed temporal property on a trace: every invite is preceded
(strictly earlier in the trace) by a ledger append with the same start. -/
def invitesAfterAppends (seen : List DT) : List Event → Bool
  | [] => true
  | Event.append s _ :: rest => invitesAfterAppends (s :: seen) rest
  | Event.invite _ s :: rest => decide (s ∈ seen) && invitesAfterAppends seen rest

/-- The trace is a sequence of blocks: one invite immediately followed by
the ledger append of the same booking. -/
def invitePairedWithAppend : List Event → Bool
  | [] => true
  | Event.invite _ s :: Event.append s2 _ :: rest =>
    decide (s = s2) && invitePairedWithAppend rest
  | _ => false

def isInviteEvent : Event → Bool
  | Event.invite _ _ => true
  | _ => false

def isScheduledOutcome : Outcome → Bool
  | Outcome.scheduled _ _ _ => true
  | _ => false

def countInvites (evts : List Event) : Nat := evts.countP isInviteEvent

def countScheduled (outs : List Outcome) : Nat := outs.countP isScheduledOutcome

/-- Final CSV contents of a run (`none` when the run aborted). -/
def finalFile (r : Except String (SchedState × List Outcome)) :
    Option (List (DT × DT)) :=
  match r with
  | Except.ok (st, _) => st.file
  | Except.error _ => none

/-- Final event trace of a run (empty when the run aborted). -/
def finalEvents (r : Except String (SchedState × List Outcome)) : List Event :=
  match r with
  | Except.ok (st, _) => st.events
  | Except.error _ => []

/-! ## Concrete inputs for scenarios, witnesses and counterexamples
(minutes since 2025-09-01 00:00; so 540 is 09:00, 600 is 10:00). -/

/-- A concrete stand-in for `datetime.fromisoformat`, defined on the two
timestamps the scenarios use; anything else raises (`none`). -/
def demoParse : String → Option DT := fun s =>
  if s = "2025-09-01 09:00" then some 540
  else if s = "2025-09-01 10:00" then some 600
  else none

def emptyState : SchedState := ⟨[], none, [], []⟩

def rowAda : Row := ⟨some ("Ada"), some ("ada@example.com"), some ("2025-09-01 09:00")⟩

def rowBo : Row := ⟨some ("Bo"), some ("bo@example.com"), some ("2025-09-01 09:00")⟩

/-- Ada again, now with a second preferred slot. -/
def rowTwoSlots : Row :=
  ⟨some ("Ada"), some ("ada@example.com"), some ("2025-09-01 09:00;2025-09-01 10:00")⟩

/-- An intake row whose dict has no `name` key. -/
def rowNoName : Row := ⟨none, some ("bo@example.com"), some ("2025-09-01 09:00")⟩

/-! ## Helper lemmas -/

theorem slot_overlaps_iff_exists (s e : DT) (bookings : List (DT × DT)) :
    slot_overlaps s e bookings = true ↔ ∃ b ∈ bookings, s < b.2 ∧ e > b.1 := by
  induction bookings with
  | nil => simp [slot_overlaps]
  | cons b rest ih =>
    obtain ⟨bstart, bend⟩ := b
    by_cases h : s < bend ∧ e > bstart
    · simp [slot_overlaps, h]
    · simp only [slot_overlaps, if_neg h, ih, List.mem_cons]
      constructor
      · rintro ⟨c, hc, hover⟩
        exact ⟨c, Or.inr hc, hover⟩
      · rintro ⟨c, hc | hc, hover⟩
        · cases hc; exact absurd hover h
        · exact ⟨c, hc, hover⟩

theorem slot_overlaps_false_iff (s e : DT) (bookings : List (DT × DT)) :
    slot_overlaps s e bookings = false ↔ ∀ b ∈ bookings, ¬ (s < b.2 ∧ e > b.1) := by
  rw [← Bool.not_eq_true, slot_overlaps_iff_exists]
  constructor
  · intro h b hb hover
    exact h ⟨b, hb, hover⟩
  · intro h
    rintro ⟨b, hb, hover⟩
    exact h b hb hover

theorem select_none_of_all_overlap (candidates committed : List (DT × DT))
    (h : ∀ c ∈ candidates, slot_overlaps c.1 c.2 committed = true) :
    select candidates committed = none := by
  induction candidates with
  | nil => rfl
  | cons c rest ih =>
    simp only [select, h c (List.mem_cons_self c rest), if_true]
    exact ih (fun d hd => h d (List.mem_cons_of_mem c hd))

theorem all_overlap_of_select_none (candidates committed : List (DT × DT))
    (h : select candidates committed = none) :
    ∀ c ∈ candidates, slot_overlaps c.1 c.2 committed = true := by
  induction candidates with
  | nil => intro c hc; simp at hc
  | cons c rest ih =>
    intro d hd
    by_cases ho : slot_overlaps c.1 c.2 committed = true
    · rcases List.mem_cons.mp hd with hde | hdr
      · cases hde; exact ho
      · exact ih (by simpa [select, ho] using h) d hdr
    · simp [select, ho] at h

theorem select_first_free (committed pre post : List (DT × DT)) (c : DT × DT)
    (hpre : ∀ d ∈ pre, slot_overlaps d.1 d.2 committed = true)
    (hc : slot_overlaps c.1 c.2 committed = false) :
    select (pre ++ c :: post) committed = some c := by
  induction pre with
  | nil => simp [select, hc]
  | cons d rest ih =>
    simp only [List.cons_append, select, hpre d (List.mem_cons_self d rest), if_true]
    exact ih (fun x hx => hpre x (List.mem_cons_of_mem d hx))

theorem processPrefs_eq_select (parse : String → Option DT) (name email : String)
    (st : SchedState) (prefs : List String) :
    (processPrefs parse name email st prefs).2 =
      select (prefs.filterMap (fun p => (parse p).map (fun s => (s, s + DURATION_MINUTES))))
        st.bookings := by
  induction prefs with
  | nil => rfl
  | cons p rest ih =>
    simp only [processPrefs, List.filterMap_cons]
    cases hp : parse p with
    | none => simpa using ih
    | some s =>
      simp only [Option.map_some, select]
      by_cases ho : slot_overlaps s (s + DURATION_MINUTES) st.bookings = true
      · simpa [ho] using ih
      · rw [Bool.not_eq_true] at ho
        simp [ho]

/-- Master case analysis of the inner loop: either no candidate is booked
and the state is untouched, or exactly one candidate is booked, it did not
overlap the bookings, and every side effect of the booking happens at once. -/
theorem processPrefs_cases (parse : String → Option DT) (name email : String)
    (st : SchedState) (prefs : List String) :
    processPrefs parse name email st prefs = (st, none) ∨
    ∃ s, slot_overlaps s (s + DURATION_MINUTES) st.bookings = false ∧
      processPrefs parse name email st prefs =
        ({ bookings := st.bookings ++ [(s, s + DURATION_MINUTES)],
           file := append_booking_to_existing s (s + DURATION_MINUTES) st.file,
           events := st.events ++ [Event.invite name s, Event.append s (s + DURATION_MINUTES)],
           scheduled := st.scheduled ++ [(name, email, s)] },
         some (s, s + DURATION_MINUTES)) := by
  induction prefs with
  | nil => exact Or.inl rfl
  | cons p rest ih =>
    simp only [processPrefs]
    cases hp : parse p with
    | none => exact ih
    | some s =>
      by_cases ho : slot_overlaps s (s + DURATION_MINUTES) st.bookings = true
      · simpa [ho] using ih
      · rw [Bool.not_eq_true] at ho
        exact Or.inr ⟨s, ho, by simp [ho]⟩

/-- Master case analysis of one loop iteration of `main`. -/
theorem processRow_cases (parse : String → Option DT) (st : SchedState) (row : Row) :
    (row.name = none ∧ processRow parse st row = Except.error ("KeyError: name")) ∨
    (∃ nm, row.name = some nm ∧ row.email = none ∧
      processRow parse st row = Except.error ("KeyError: email")) ∨
    (∃ nm em, row.name = some nm ∧ row.email = some em ∧
      processRow parse st row = Except.ok (st, Outcome.noPrefs (pyStrip nm))) ∨
    (∃ nm em, row.name = some nm ∧ row.email = some em ∧
      processRow parse st row = Except.ok (st, Outcome.noFreeSlot (pyStrip nm))) ∨
    (∃ nm em s, row.name = some nm ∧ row.email = some em ∧
      slot_overlaps s (s + DURATION_MINUTES) st.bookings = false ∧
      processRow parse st row =
        Except.ok
          ({ bookings := st.bookings ++ [(s, s + DURATION_MINUTES)],
             file := append_booking_to_existing s (s + DURATION_MINUTES) st.file,
             events := st.events ++
               [Event.invite (pyStrip nm) s, Event.append s (s + DURATION_MINUTES)],
             scheduled := st.scheduled ++ [(pyStrip nm, pyStrip em, s)] },
           Outcome.scheduled (pyStrip nm) s (s + DURATION_MINUTES))) := by
  cases hn : row.name with
  | none => exact Or.inl ⟨rfl, by simp [processRow, hn]⟩
  | some nm =>
    cases he : row.email with
    | none => exact Or.inr (Or.inl ⟨nm, rfl, rfl, by simp [processRow, hn, he]⟩)
    | some em =>
      by_cases hrp : pyStrip (row.preferred_slots.getD "") = ""
      · exact Or.inr (Or.inr (Or.inl ⟨nm, em, rfl, rfl, by simp [processRow, hn, he, hrp]⟩))
      · rcases processPrefs_cases parse (pyStrip nm) (pyStrip em) st
          (parsePrefs (pyStrip (row.preferred_slots.getD ""))) with hcase | ⟨s, ho, hcase⟩
        · refine Or.inr (Or.inr (Or.inr (Or.inl ⟨nm, em, rfl, rfl, ?_⟩)))
          simp [processRow, hn, he, hrp, hcase]
        · refine Or.inr (Or.inr (Or.inr (Or.inr ⟨nm, em, s, rfl, rfl, ho, ?_⟩)))
          simp [processRow, hn, he, hrp, hcase]

theorem noTwoOverlap_append (l : List (DT × DT)) (s e : DT)
    (hl : NoTwoOverlap l) (ho : slot_overlaps s e l = false) :
    NoTwoOverlap (l ++ [(s, e)]) := by
  rw [NoTwoOverlap, List.pairwise_append]
  refine ⟨hl, List.pairwise_singleton _ _, ?_⟩
  intro a ha b hb
  simp only [List.mem_singleton] at hb
  subst hb
  have hnot := (slot_overlaps_false_iff s e l).mp ho a ha
  intro hover
  exact hnot ⟨hover.2, hover.1⟩

theorem processRow_preserves_noOverlap (parse : String → Option DT) (st st2 : SchedState)
    (row : Row) (o : Outcome) (hno : NoTwoOverlap st.bookings)
    (hrun : processRow parse st row = Except.ok (st2, o)) :
    NoTwoOverlap st2.bookings := by
  rcases processRow_cases parse st row with
    ⟨_, hc⟩ | ⟨nm, _, _, hc⟩ | ⟨nm, em, _, _, hc⟩ | ⟨nm, em, _, _, hc⟩ |
    ⟨nm, em, s, _, _, ho, hc⟩
  · rw [hc] at hrun; exact absurd hrun (by simp)
  · rw [hc] at hrun; exact absurd hrun (by simp)
  · rw [hc] at hrun
    simp only [Except.ok.injEq, Prod.mk.injEq] at hrun
    rw [← hrun.1]
    exact hno
  · rw [hc] at hrun
    simp only [Except.ok.injEq, Prod.mk.injEq] at hrun
    rw [← hrun.1]
    exact hno
  · rw [hc] at hrun
    simp only [Except.ok.injEq, Prod.mk.injEq] at hrun
    rw [← hrun.1]
    exact noTwoOverlap_append st.bookings s (s + DURATION_MINUTES) hno ho

theorem runRows_cons_of_error (parse : String → Option DT) (st : SchedState) (row : Row)
    (rows : List Row) (e : String) (hp : processRow parse st row = Except.error e) :
    runRows parse st (row :: rows) = Except.error e := by
  simp only [runRows, hp]

theorem runRows_cons_of_ok (parse : String → Option DT) (st st2 : SchedState) (row : Row)
    (rows : List Row) (o : Outcome) (hp : processRow parse st row = Except.ok (st2, o)) :
    runRows parse st (row :: rows) =
      match runRows parse st2 rows with
      | Except.error e => Except.error e
      | Except.ok (st3, os) => Except.ok (st3, o :: os) := by
  simp only [runRows, hp]

theorem runRows_cons_ok_inv (parse : String → Option DT) (st st3 : SchedState) (row : Row)
    (rows : List Row) (outs : List Outcome)
    (h : runRows parse st (row :: rows) = Except.ok (st3, outs)) :
    ∃ st2 o os, processRow parse st row = Except.ok (st2, o) ∧
      runRows parse st2 rows = Except.ok (st3, os) ∧ outs = o :: os := by
  cases hp : processRow parse st row with
  | error e =>
    rw [runRows_cons_of_error parse st row rows e hp] at h
    exact absurd h (by simp)
  | ok p =>
    obtain ⟨st2, o⟩ := p
    rw [runRows_cons_of_ok parse st st2 row rows o hp] at h
    cases hr : runRows parse st2 rows with
    | error e =>
      rw [hr] at h
      exact absurd h (by simp)
    | ok q =>
      obtain ⟨stq, os⟩ := q
      rw [hr] at h
      simp only [Except.ok.injEq, Prod.mk.injEq] at h
      exact ⟨st2, o, os, rfl, by rw [hr, h.1], h.2.symm⟩

theorem runRows_preserves_noOverlap (parse : String → Option DT) (rows : List Row) :
    ∀ (st st2 : SchedState) (outs : List Outcome), NoTwoOverlap st.bookings →
      runRows parse st rows = Except.ok (st2, outs) → NoTwoOverlap st2.bookings := by
  induction rows with
  | nil =>
    intro st st2 outs h hrun
    simp only [runRows, Except.ok.injEq, Prod.mk.injEq] at hrun
    rw [← hrun.1]
    exact h
  | cons row rows ih =>
    intro st st2 outs h hrun
    rcases runRows_cons_ok_inv parse st st2 row rows outs hrun with
      ⟨stMid, o, os, hp, hr, _⟩
    exact ih stMid st2 os (processRow_preserves_noOverlap parse st stMid row o h hp) hr

theorem read_append (s e : DT) (file : Option (List (DT × DT))) :
    read_existing_bookings (append_booking_to_existing s e file) =
      read_existing_bookings file ++ [(s, e)] := by
  cases file <;> rfl

theorem processRow_preserves_sync (parse : String → Option DT) (st st2 : SchedState)
    (row : Row) (o : Outcome) (hsync : st.bookings = read_existing_bookings st.file)
    (hrun : processRow parse st row = Except.ok (st2, o)) :
    st2.bookings = read_existing_bookings st2.file := by
  rcases processRow_cases parse st row with
    ⟨_, hc⟩ | ⟨nm, _, _, hc⟩ | ⟨nm, em, _, _, hc⟩ | ⟨nm, em, _, _, hc⟩ |
    ⟨nm, em, s, _, _, ho, hc⟩
  · rw [hc] at hrun; exact absurd hrun (by simp)
  · rw [hc] at hrun; exact absurd hrun (by simp)
  · rw [hc] at hrun
    simp only [Except.ok.injEq, Prod.mk.injEq] at hrun
    rw [← hrun.1]
    exact hsync
  · rw [hc] at hrun
    simp only [Except.ok.injEq, Prod.mk.injEq] at hrun
    rw [← hrun.1]
    exact hsync
  · rw [hc] at hrun
    simp only [Except.ok.injEq, Prod.mk.injEq] at hrun
    rw [← hrun.1]
    rw [read_append]
    simp [hsync]

theorem runRows_preserves_sync (parse : String → Option DT) (rows : List Row) :
    ∀ (st st2 : SchedState) (outs : List Outcome),
      st.bookings = read_existing_bookings st.file →
      runRows parse st rows = Except.ok (st2, outs) →
      st2.bookings = read_existing_bookings st2.file := by
  induction rows with
  | nil =>
    intro st st2 outs h hrun
    simp only [runRows, Except.ok.injEq, Prod.mk.injEq] at hrun
    rw [← hrun.1]
    exact h
  | cons row rows ih =>
    intro st st2 outs h hrun
    rcases runRows_cons_ok_inv parse st st2 row rows outs hrun with
      ⟨stMid, o, os, hp, hr, _⟩
    exact ih stMid st2 os (processRow_preserves_sync parse st stMid row o h hp) hr

theorem runRows_events (parse : String → Option DT) (rows : List Row) :
    ∀ (st st2 : SchedState) (outs : List Outcome),
      runRows parse st rows = Except.ok (st2, outs) →
      ∃ evts, st2.events = st.events ++ evts ∧ invitePairedWithAppend evts = true ∧
        countInvites evts = countScheduled outs := by
  induction rows with
  | nil =>
    intro st st2 outs hrun
    simp only [runRows, Except.ok.injEq, Prod.mk.injEq] at hrun
    exact ⟨[], by rw [← hrun.1]; simp, rfl, by rw [← hrun.2]; rfl⟩
  | cons row rows ih =>
    intro st st2 outs hrun
    rcases runRows_cons_ok_inv parse st st2 row rows outs hrun with
      ⟨stMid, o, os, hp, hr, houts⟩
    rcases ih stMid st2 os hr with ⟨evts, hev, hpair, hcount⟩
    rcases processRow_cases parse st row with
      ⟨_, hc⟩ | ⟨nm, _, _, hc⟩ | ⟨nm, em, _, _, hc⟩ | ⟨nm, em, _, _, hc⟩ |
      ⟨nm, em, s, _, _, ho, hc⟩
    · rw [hc] at hp; exact absurd hp (by simp)
    · rw [hc] at hp; exact absurd hp (by simp)
    · rw [hc] at hp
      simp only [Except.ok.injEq, Prod.mk.injEq] at hp
      refine ⟨evts, by rw [← hp.1] at hev; exact hev, hpair, ?_⟩
      rw [houts, ← hp.2]
      simpa [countScheduled, List.countP_cons, isScheduledOutcome] using hcount
    · rw [hc] at hp
      simp only [Except.ok.injEq, Prod.mk.injEq] at hp
      refine ⟨evts, by rw [← hp.1] at hev; exact hev, hpair, ?_⟩
      rw [houts, ← hp.2]
      simpa [countScheduled, List.countP_cons, isScheduledOutcome] using hcount
    · rw [hc] at hp
      simp only [Except.ok.injEq, Prod.mk.injEq] at hp
      refine ⟨Event.invite (pyStrip nm) s :: Event.append s (s + DURATION_MINUTES) :: evts,
        ?_, ?_, ?_⟩
      · rw [← hp.1] at hev
        rw [hev]
        simp
      · simp [invitePairedWithAppend, hpair]
      · rw [houts, ← hp.2]
        simp [countInvites, countScheduled, List.countP_cons, isInviteEvent,
          isScheduledOutcome] at hcount ⊢
        exact hcount

/-! ## Claim theorems -/

/-- C1: slot selection is first-fit over the requester-stated preference
order: the selector returns `none` on an empty candidate list, returns
`none` exactly when every candidate overlaps the committed set, returns
the first candidate of the given order that does not overlap, and the
inner loop of `main` (with parsing) computes exactly this selector over
the candidates that parse — so candidates are never reordered. -/
theorem select_spec (committed candidates pre post : List (DT × DT)) (c : DT × DT)
    (parse : String → Option DT) (name email : String) (st : SchedState)
    (prefs : List String) :
    select [] committed = none ∧
    ((∀ d ∈ candidates, slot_overlaps d.1 d.2 committed = true) →
      select candidates committed = none) ∧
    (select candidates committed = none →
      ∀ d ∈ candidates, slot_overlaps d.1 d.2 committed = true) ∧
    ((∀ d ∈ pre, slot_overlaps d.1 d.2 committed = true) →
      slot_overlaps c.1 c.2 committed = false →
      select (pre ++ c :: post) committed = some c) ∧
    (processPrefs parse name email st prefs).2 =
      select (prefs.filterMap (fun p => (parse p).map (fun s => (s, s + DURATION_MINUTES))))
        st.bookings :=
  ⟨rfl,
   fun h => select_none_of_all_overlap candidates committed h,
   fun h => all_overlap_of_select_none candidates committed h,
   fun hpre hc => select_first_free committed pre post c hpre hc,
   processPrefs_eq_select parse name email st prefs⟩

/-- C1 witness: against committed `[(0, 30)]` and candidates
`[(0, 35), (40, 70)]`, the first candidate conflicts and the second is
selected. -/
theorem select_spec_witness :
    select [(0, 35), (40, 70)] [(0, 30)] = some (40, 70) :=
  (select_spec [(0, 30)] [] [(0, 35)] [] (40, 70) (fun _ => none) "" ""
    emptyState []).2.2.2.1 (by decide) (by decide)

/-- C2: starting from a committed set in which no two intervals overlap,
after any run of the orchestrator loop (each append being guarded by the
`slot_overlaps` check against the full current committed set) no two
intervals of the committed set overlap. -/
theorem ledger_no_overlap_invariant (parse : String → Option DT) (rows : List Row)
    (st st2 : SchedState) (outs : List Outcome)
    (hno : NoTwoOverlap st.bookings)
    (hrun : runRows parse st rows = Except.ok (st2, outs)) :
    NoTwoOverlap st2.bookings :=
  runRows_preserves_noOverlap parse rows st st2 outs hno hrun

/-- C2 witness: the committed set left by scheduling Ada and rejecting Bo
from an empty ledger has no two overlapping intervals. -/
theorem ledger_no_overlap_invariant_witness :
    NoTwoOverlap [(540, 570)] :=
  ledger_no_overlap_invariant demoParse [rowAda, rowBo] emptyState
    ⟨[(540, 570)], some [(540, 570)],
      [Event.invite ("Ada") 540, Event.append 540 570], [(("Ada"), ("ada@example.com"), 540)]⟩
    [Outcome.scheduled ("Ada") 540 570, Outcome.noFreeSlot ("Bo")]
    (by simp [NoTwoOverlap, emptyState]) rfl

/-- C4: `slot_overlaps` returns true iff some committed interval `b` has
`a.start < b.end` and `a.end > b.start`; intervals that merely touch at an
endpoint, such as 09:00-10:00 against 10:00-11:00 stated in minutes as
`[600, 660)` against `[660, 720)`, do not overlap. -/
theorem slot_overlaps_semantics (s e : DT) (bookings : List (DT × DT)) :
    (slot_overlaps s e bookings = true ↔ ∃ b ∈ bookings, s < b.2 ∧ e > b.1) ∧
    slot_overlaps 600 660 [(660, 720)] = false :=
  ⟨slot_overlaps_iff_exists s e bookings, by decide⟩

/-- C9: overlap checking is symmetric: checking interval `a` against the
one-element committed set `[b]` equals checking `b` against `[a]`. -/
theorem slot_overlaps_symm (a b : DT × DT) :
    slot_overlaps a.1 a.2 [b] = slot_overlaps b.1 b.2 [a] := by
  obtain ⟨a1, a2⟩ := a
  obtain ⟨b1, b2⟩ := b
  simp only [slot_overlaps, gt_iff_lt]
  by_cases h : a1 < b2 ∧ b1 < a2
  · rw [if_pos ⟨h.1, h.2⟩, if_pos ⟨h.2, h.1⟩]
  · rw [if_neg (fun hx => h ⟨hx.1, hx.2⟩), if_neg (fun hx => h ⟨hx.2, hx.1⟩)]

/-- C5 counterexample: scheduling Ada from an empty ledger produces the
trace `[invite, append]` — the invite is written by `create_ics` strictly
before `append_booking_to_existing` runs, so the existence of the invite does
precede the ledger append it corresponds to. -/
theorem invite_precedes_append_cex :
    invitesAfterAppends [] (finalEvents (mainRun demoParse [rowAda] none)) = false := by
  rfl

/-- C5 amended: for every successful booking the invite document is
created exactly once, immediately BEFORE (not after) the interval of the
booking is appended to the ledger: the trace of every completed run is a
sequence of invite-then-append pairs over the same booking, with exactly
one invite per `Scheduled` outcome. -/
theorem invite_paired_with_append (parse : String → Option DT) (rows : List Row)
    (file : Option (List (DT × DT))) (st : SchedState) (outs : List Outcome)
    (hrun : mainRun parse rows file = Except.ok (st, outs)) :
    invitePairedWithAppend st.events = true ∧
    countInvites st.events = countScheduled outs := by
  rcases runRows_events parse rows
      { bookings := read_existing_bookings file, file := file, events := [], scheduled := [] }
      st outs hrun with ⟨evts, hev, hpair, hcount⟩
  simp only [List.nil_append] at hev
  rw [hev]
  exact ⟨hpair, hcount⟩

/-- C5 witness: the trace of the run that schedules Ada is the
invite-append pair of her one booking. -/
theorem invite_paired_with_append_witness :
    invitePairedWithAppend [Event.invite ("Ada") 540, Event.append 540 570] = true ∧
    countInvites [Event.invite ("Ada") 540, Event.append 540 570] =
      countScheduled [Outcome.scheduled ("Ada") 540 570] :=
  invite_paired_with_append demoParse [rowAda] none
    ⟨[(540, 570)], some [(540, 570)],
      [Event.invite ("Ada") 540, Event.append 540 570], [(("Ada"), ("ada@example.com"), 540)]⟩
    [Outcome.scheduled ("Ada") 540 570] rfl

/-- C7: first-come-first-served within one run: a booked interval joins
the in-memory committed set at once (the bookings of the new state are the old
ones plus exactly the booked interval), and in the two-request scenario —
Ada then Bo, both with sole candidate 09:00 (minute 540), empty initial
ledger — Ada is scheduled and Bo gets no free slot. -/
theorem first_come_first_served (parse : String → Option DT) (name email : String)
    (st st2 : SchedState) (prefs : List String) (s e : DT) :
    (processPrefs parse name email st prefs = (st2, some (s, e)) →
      st2.bookings = st.bookings ++ [(s, e)]) ∧
    mainRun demoParse [rowAda, rowBo] none =
      Except.ok
        (⟨[(540, 570)], some [(540, 570)],
          [Event.invite ("Ada") 540, Event.append 540 570],
          [(("Ada"), ("ada@example.com"), 540)]⟩,
         [Outcome.scheduled ("Ada") 540 570, Outcome.noFreeSlot ("Bo")]) := by
  constructor
  · intro h
    rcases processPrefs_cases parse name email st prefs with hc | ⟨s2, ho, hc⟩
    · rw [hc] at h
      exact absurd h (by simp)
    · rw [hc] at h
      simp only [Prod.mk.injEq, Option.some.injEq] at h
      obtain ⟨h1, h2, h3⟩ := h
      subst h2
      subst h3
      rw [← h1]
  · rfl

/-- C7 witness: in the Ada-then-Bo scenario the state after the booking
of Ada holds exactly her interval on top of the empty ledger. -/
theorem first_come_first_served_witness :
    SchedState.bookings
        ⟨[(540, 570)], some [(540, 570)],
          [Event.invite ("Ada") 540, Event.append 540 570],
          [(("Ada"), ("ada@example.com"), 540)]⟩ =
      SchedState.bookings emptyState ++ [(540, 570)] :=
  (first_come_first_served demoParse ("Ada") ("ada@example.com") emptyState
      ⟨[(540, 570)], some [(540, 570)],
        [Event.invite ("Ada") 540, Event.append 540 570],
        [(("Ada"), ("ada@example.com"), 540)]⟩
      [("2025-09-01 09:00")] 540 570).1 rfl

/-- C3 (code bug): the run is not idempotent. Ada lists two preferred
slots 09:00 and 10:00; the first run books 09:00 and leaves one interval
in the CSV, but a second run on the same unmodified input and the store
left by the first run books Ada again at 10:00 — two committed intervals
after two runs against one after one run, contradicting the docstring of
the script itself, which promises that repeated runs avoid duplicates. -/
theorem second_run_double_books :
    finalFile (mainRun demoParse [rowTwoSlots] none) = some [(540, 570)] ∧
    finalFile (mainRun demoParse [rowTwoSlots]
        (finalFile (mainRun demoParse [rowTwoSlots] none))) =
      some [(540, 570), (600, 630)] :=
  ⟨rfl, rfl⟩

/-- C6 counterexample: a record whose dict has no `name` key makes
the `name` subscript raise an uncaught `KeyError`, aborting the whole run — the
orchestrator does not continue to the next request. -/
theorem missing_field_aborts_run_cex :
    runRows demoParse emptyState [rowNoName] = Except.error ("KeyError: name") := by
  rfl

/-- C6 amended: a candidate with a malformed timestamp is skipped and the
loop proceeds; when the only candidate of the request is malformed the outcome
is the no-free-slot report (`Could not find a free preferred slot`), not a
distinct invalid outcome; a record with a missing or blank
`preferred_slots` field gets the `No preferred slots` outcome and the run
continues with the remaining rows; but a record missing the `name` field
raises an uncaught `KeyError` that aborts the whole run. -/
theorem per_request_failure_handling (parse : String → Option DT)
    (name email : String) (st : SchedState) (p p2 : String) (rest : List String)
    (row : Row) (rows : List Row) (nm em rp : String) :
    (parse p = none →
      processPrefs parse name email st (p :: rest) = processPrefs parse name email st rest) ∧
    (parse p2 = none → row = ⟨some nm, some em, some rp⟩ → pyStrip rp ≠ "" →
      parsePrefs (pyStrip rp) = [p2] →
      processRow parse st row = Except.ok (st, Outcome.noFreeSlot (pyStrip nm))) ∧
    (row.name = some nm → row.email = some em →
      pyStrip (row.preferred_slots.getD "") = "" →
      runRows parse st (row :: rows) =
        (match runRows parse st rows with
         | Except.error e => Except.error e
         | Except.ok (st2, os) => Except.ok (st2, Outcome.noPrefs (pyStrip nm) :: os))) ∧
    (row.name = none → processRow parse st row = Except.error ("KeyError: name")) := by
  refine ⟨?_, ?_, ?_, ?_⟩
  · intro hp
    simp [processPrefs, hp]
  · intro hp hrow hne hprefs
    subst hrow
    simp [processRow, hne, hprefs, processPrefs, hp]
  · intro hn he hrp
    refine runRows_cons_of_ok parse st st row rows (Outcome.noPrefs (pyStrip nm)) ?_
    simp [processRow, hn, he, hrp]
  · intro hn
    simp [processRow, hn]

/-- C6 witness: a sole candidate `not-a-date` is skipped as malformed and
the request ends in the no-free-slot outcome with the state untouched. -/
theorem per_request_failure_handling_witness :
    processRow demoParse emptyState ⟨some ("Cy"), some ("cy@example.com"), some ("not-a-date")⟩ =
      Except.ok (emptyState, Outcome.noFreeSlot ("Cy")) :=
  (per_request_failure_handling demoParse "" "" emptyState "" ("not-a-date") []
      ⟨some ("Cy"), some ("cy@example.com"), some ("not-a-date")⟩ []
      ("Cy") ("cy@example.com") ("not-a-date")).2.1
    (by decide) rfl (by decide) (by decide)

/-- C8: ledger load semantics: reading a non-existent store yields the
empty sequence; reading after an append yields the previously recorded
intervals, in order, followed by the appended one; and across a whole run
the in-memory committed set stays exactly what reading the store back
would return — so a later run loads every interval in recording order. -/
theorem ledger_load_semantics (parse : String → Option DT) (rows : List Row)
    (st st2 : SchedState) (outs : List Outcome)
    (file : Option (List (DT × DT))) (s e : DT) :
    read_existing_bookings none = [] ∧
    read_existing_bookings (append_booking_to_existing s e file) =
      read_existing_bookings file ++ [(s, e)] ∧
    (st.bookings = read_existing_bookings st.file →
      runRows parse st rows = Except.ok (st2, outs) →
      st2.bookings = read_existing_bookings st2.file) :=
  ⟨rfl, read_append s e file,
   fun hsync hrun => runRows_preserves_sync parse rows st st2 outs hsync hrun⟩

/-- C8 witness: after the run that schedules Ada the in-memory committed set equals what
reading the store back returns. -/
theorem ledger_load_semantics_witness :
    SchedState.bookings
        ⟨[(540, 570)], some [(540, 570)],
          [Event.invite ("Ada") 540, Event.append 540 570],
          [(("Ada"), ("ada@example.com"), 540)]⟩ =
      read_existing_bookings
        (SchedState.file
          ⟨[(540, 570)], some [(540, 570)],
            [Event.invite ("Ada") 540, Event.append 540 570],
            [(("Ada"), ("ada@example.com"), 540)]⟩) :=
  (ledger_load_semantics demoParse [rowAda] emptyState
      ⟨[(540, 570)], some [(540, 570)],
        [Event.invite ("Ada") 540, Event.append 540 570],
        [(("Ada"), ("ada@example.com"), 540)]⟩
      [Outcome.scheduled ("Ada") 540 570] none 0 0).2.2 rfl rfl

/-- C10: the orchestrator never validates the requester name beyond
`strip()`: a row whose name trims to the empty string but carries a valid
non-conflicting sole candidate is processed like any other — the interval
is appended to the bookings and the store, the invite is written, the
outcome is `Scheduled`, never a rejection. -/
theorem empty_name_still_processed (parse : String → Option DT) (st : SchedState)
    (nm em rp p : String) (s : DT)
    (hname : pyStrip nm = "")
    (hrp : pyStrip rp ≠ "")
    (hprefs : parsePrefs (pyStrip rp) = [p])
    (hparse : parse p = some s)
    (hfree : slot_overlaps s (s + DURATION_MINUTES) st.bookings = false) :
    processRow parse st ⟨some nm, some em, some rp⟩ =
      Except.ok
        ({ bookings := st.bookings ++ [(s, s + DURATION_MINUTES)],
           file := append_booking_to_existing s (s + DURATION_MINUTES) st.file,
           events := st.events ++ [Event.invite "" s, Event.append s (s + DURATION_MINUTES)],
           scheduled := st.scheduled ++ [("", pyStrip em, s)] },
         Outcome.scheduled "" s (s + DURATION_MINUTES)) := by
  simp [processRow, hname, hrp, hprefs, processPrefs, hparse, hfree]

/-- C10 witness: the name `" "` trims to empty yet the row is scheduled at
minute 540, with the ledger append and the invite both performed. -/
theorem empty_name_still_processed_witness :
    processRow demoParse emptyState ⟨some (" "), some ("x@example.com"), some ("2025-09-01 09:00")⟩ =
      Except.ok
        (⟨[(540, 570)], some [(540, 570)],
          [Event.invite "" 540, Event.append 540 570],
          [("", ("x@example.com"), 540)]⟩,
         Outcome.scheduled "" 540 570) :=
  empty_name_still_processed demoParse emptyState (" ") ("x@example.com")
    ("2025-09-01 09:00") ("2025-09-01 09:00") 540
    (by decide) (by decide) (by decide) (by decide) (by decide)

end MvpScheduler
